import Mathlib

/-!
Verification of the AutoStatsCan ingestion core (src/pull.js) against its
specification. The JavaScript source is shallowly embedded: strings are
modelled as `String` or `List Char`, JavaScript objects built by key
assignment are modelled as ordered association lists with first-occurrence
update semantics, and the SQLite connection is modelled as explicit state.
External failures (SQL errors, fetch failures) are supplied by Boolean
oracles, since they originate outside the program.
-/

set_option autoImplicit false

namespace AutoStatsCan

/-! ## Name sanitization (src/pull.js lines 45-47, and the inline
`replace(/[^a-zA-Z0-9_]/g, '_')` calls on headers and row keys) -/

/-- A character the regex class `[a-zA-Z0-9_]` accepts. -/
def validIdentChar (c : Char) : Bool :=
  decide (('a' ≤ c ∧ c ≤ 'z') ∨ ('A' ≤ c ∧ c ≤ 'Z') ∨ ('0' ≤ c ∧ c ≤ '9') ∨ c = '_')

/-- One step of `name.replace(/[^a-zA-Z0-9_]/g, '_')`: the regex rewrites
each character outside the class to an underscore, character by character. -/
def sanitizeChar (c : Char) : Char :=
  if validIdentChar c then c else '_'

/-- `replace(/[^a-zA-Z0-9_]/g, '_')` on the character sequence of a string. -/
def sanitizeChars (s : List Char) : List Char :=
  s.map sanitizeChar

/-- `sanitizeTableName` from src/pull.js lines 45-47 (the same transform is
applied inline to headers and row keys throughout the file). -/
def sanitizeTableName (s : String) : String :=
  String.mk (sanitizeChars s.data)

theorem validIdentChar_sanitizeChar (c : Char) : validIdentChar (sanitizeChar c) = true := by
  unfold sanitizeChar
  by_cases h : validIdentChar c = true
  · simp [h]
  · rw [if_neg h]
    decide

theorem sanitizeChars_length (s : List Char) : (sanitizeChars s).length = s.length :=
  List.length_map _ _

/-- C8: the name sanitizer replaces exactly the characters outside
`[A-Za-z0-9_]` with underscore: every character of the output is in the
class, the length is preserved, and every already-valid input character
appears unchanged at its original position.  (The function is a plain Lean
function of its argument, hence pure, total and deterministic.) -/
theorem spec_c8_sanitizer (s : List Char) :
    (∀ c ∈ sanitizeChars s, validIdentChar c = true) ∧
    (sanitizeChars s).length = s.length ∧
    (∀ (i : Nat) (c : Char), s.get? i = some c → validIdentChar c = true →
      (sanitizeChars s).get? i = some c) := by
  refine ⟨?_, sanitizeChars_length s, ?_⟩
  · intro c hc
    rcases List.mem_map.mp hc with ⟨a, _, rfl⟩
    exact validIdentChar_sanitizeChar a
  · intro i c hget hvalid
    unfold sanitizeChars
    rw [List.get?_map, hget]
    simp [sanitizeChar, hvalid]

/-- Witness for C8 at a concrete input: sanitizing `"a b"` keeps the valid
character `a` at position 0. -/
theorem spec_c8_sanitizer_witness :
    (sanitizeChars ("a b".data)).get? 0 = some 'a' :=
  (spec_c8_sanitizer ("a b".data)).2.2 0 'a' rfl (by decide)

/-! ## JavaScript objects as ordered association lists

The row objects and counter objects in src/pull.js are plain JavaScript
objects whose keys are inserted and deleted dynamically.  Property read,
property assignment and `delete` are modelled on ordered association lists
with unique keys: assignment updates the first (only) occurrence in place
or appends a fresh key at the end, exactly as JavaScript enumeration order
behaves for string keys. -/

/-- Property read `m[k]`, `undefined` becoming `none`. -/
def objGet {α : Type} (m : List (String × α)) (k : String) : Option α :=
  match m with
  | [] => none
  | p :: rest => if p.1 == k then some p.2 else objGet rest k

/-- Property assignment `m[k] = v`. -/
def objSet {α : Type} (m : List (String × α)) (k : String) (v : α) : List (String × α) :=
  match m with
  | [] => [(k, v)]
  | p :: rest => if p.1 == k then (k, v) :: rest else p :: objSet rest k v

/-- Property removal `delete m[k]`. -/
def objDelete {α : Type} (m : List (String × α)) (k : String) : List (String × α) :=
  m.filter (fun p => !(p.1 == k))

/-- The keys of an object, in enumeration order. -/
def objKeys {α : Type} (m : List (String × α)) : List String :=
  m.map Prod.fst

theorem objGet_objSet_self {α : Type} (m : List (String × α)) (k : String) (v : α) :
    objGet (objSet m k v) k = some v := by
  induction m with
  | nil => simp [objSet, objGet]
  | cons p rest ih =>
    by_cases h : p.1 = k
    · simp [objSet, objGet, h]
    · simp only [objSet, objGet, beq_iff_eq, h, if_false, ite_false]
      exact ih

theorem objGet_objSet_ne {α : Type} (m : List (String × α)) (k j : String) (v : α)
    (h : j ≠ k) : objGet (objSet m k v) j = objGet m j := by
  have hkj : (k == j) = false := beq_eq_false_iff_ne.mpr (Ne.symm h)
  induction m with
  | nil => simp [objSet, objGet, hkj]
  | cons p rest ih =>
    by_cases hp : p.1 = k
    · have hpj : (p.1 == j) = false := beq_eq_false_iff_ne.mpr (by rw [hp]; exact Ne.symm h)
      have hpk : (p.1 == k) = true := beq_iff_eq.mpr hp
      simp [objSet, objGet, hpk, hpj, hkj]
    · have hpk : (p.1 == k) = false := beq_eq_false_iff_ne.mpr hp
      by_cases hj : p.1 = j
      · have hpj : (p.1 == j) = true := beq_iff_eq.mpr hj
        simp [objSet, objGet, hpk, hpj]
      · have hpj : (p.1 == j) = false := beq_eq_false_iff_ne.mpr hj
        simp only [objSet, hpk, if_false, cond_false, objGet, hpj, Bool.false_eq_true,
          ite_false]
        exact ih

theorem objGet_objDelete_self {α : Type} (m : List (String × α)) (k : String) :
    objGet (objDelete m k) k = none := by
  induction m with
  | nil => simp [objDelete, objGet]
  | cons p rest ih =>
    by_cases hp : p.1 = k
    · have hpk : (p.1 == k) = true := beq_iff_eq.mpr hp
      simpa [objDelete, List.filter_cons, hpk] using ih
    · have hpk : (p.1 == k) = false := beq_eq_false_iff_ne.mpr hp
      simpa [objDelete, List.filter_cons, hpk, objGet] using ih

theorem objGet_objDelete_ne {α : Type} (m : List (String × α)) (k j : String)
    (h : j ≠ k) : objGet (objDelete m k) j = objGet m j := by
  induction m with
  | nil => simp [objDelete]
  | cons p rest ih =>
    by_cases hp : p.1 = k
    · have hpk : (p.1 == k) = true := beq_iff_eq.mpr hp
      have hpj : (p.1 == j) = false := beq_eq_false_iff_ne.mpr (by rw [hp]; exact Ne.symm h)
      simpa [objDelete, List.filter_cons, hpk, objGet, hpj] using ih
    · have hpk : (p.1 == k) = false := beq_eq_false_iff_ne.mpr hp
      by_cases hj : p.1 = j
      · have hpj : (p.1 == j) = true := beq_iff_eq.mpr hj
        simp [objDelete, List.filter_cons, hpk, objGet, hpj]
      · have hpj : (p.1 == j) = false := beq_eq_false_iff_ne.mpr hj
        simpa [objDelete, List.filter_cons, hpk, objGet, hpj] using ih

theorem objGet_mem {α : Type} (m : List (String × α)) (k : String) (v : α)
    (h : objGet m k = some v) : (k, v) ∈ m := by
  induction m with
  | nil => simp [objGet] at h
  | cons p rest ih =>
    by_cases hp : p.1 = k
    · have hpk : (p.1 == k) = true := beq_iff_eq.mpr hp
      simp only [objGet, hpk, if_true, Option.some.injEq] at h
      have hpkv : p = (k, v) := Prod.ext hp h
      rw [← hpkv]
      exact List.mem_cons_self _ _
    · have hpk : (p.1 == k) = false := beq_eq_false_iff_ne.mpr hp
      simp only [objGet, hpk, Bool.false_eq_true, ite_false] at h
      exact List.mem_cons_of_mem _ (ih h)

theorem objSet_entry_cases {α : Type} (m : List (String × α)) (k : String) (v : α)
    (p : String × α) (hp : p ∈ objSet m k v) : p = (k, v) ∨ p ∈ m := by
  induction m with
  | nil => simpa [objSet] using hp
  | cons q rest ih =>
    by_cases hq : q.1 = k
    · have hqk : (q.1 == k) = true := beq_iff_eq.mpr hq
      have heq : objSet (q :: rest) k v = (k, v) :: rest := by simp [objSet, hqk]
      rw [heq] at hp
      rcases List.mem_cons.mp hp with h | h
      · exact Or.inl h
      · exact Or.inr (List.mem_cons_of_mem _ h)
    · have hqk : (q.1 == k) = false := beq_eq_false_iff_ne.mpr hq
      have heq : objSet (q :: rest) k v = q :: objSet rest k v := by simp [objSet, hqk]
      rw [heq] at hp
      rcases List.mem_cons.mp hp with h | h
      · refine Or.inr ?_
        rw [h]
        exact List.mem_cons_self _ _
      · rcases ih h with h2 | h2
        · exact Or.inl h2
        · exact Or.inr (List.mem_cons_of_mem _ h2)

theorem objKeys_objSet {α : Type} (m : List (String × α)) (k : String) (v : α) :
    objKeys (objSet m k v) = if k ∈ objKeys m then objKeys m else objKeys m ++ [k] := by
  induction m with
  | nil => simp [objSet, objKeys]
  | cons p rest ih =>
    by_cases hp : p.1 = k
    · have hpk : (p.1 == k) = true := beq_iff_eq.mpr hp
      simp [objSet, objKeys, hpk, hp]
    · have hpk : (p.1 == k) = false := beq_eq_false_iff_ne.mpr hp
      have hkp : ¬k = p.1 := fun hh => hp hh.symm
      simp only [objSet, hpk, Bool.false_eq_true, ite_false, objKeys, List.map_cons] at ih ⊢
      rw [ih]
      by_cases hk : k ∈ List.map Prod.fst rest
      · simp [objKeys, hk, List.mem_cons, hkp]
      · simp [objKeys, hk, List.mem_cons, hkp]

/-! ## Row filtering and the column remapper
(src/pull.js lines 153-186 in `ingestLocalCsv`, identical code at lines
259-294 in `downloadCsvToSqlite`). -/

/-- The whitespace characters recognised by JavaScript `String.prototype.trim`
(ECMAScript WhiteSpace plus LineTerminator code points). -/
def isJsWhitespace (c : Char) : Bool :=
  decide (c.toNat = 9 ∨ c.toNat = 10 ∨ c.toNat = 11 ∨ c.toNat = 12 ∨ c.toNat = 13 ∨
    c.toNat = 32 ∨ c.toNat = 160 ∨ c.toNat = 5760 ∨ (8192 ≤ c.toNat ∧ c.toNat ≤ 8202) ∨
    c.toNat = 8232 ∨ c.toNat = 8233 ∨ c.toNat = 8239 ∨ c.toNat = 8287 ∨
    c.toNat = 12288 ∨ c.toNat = 65279)

/-- The test `v.trim() !== ''`: the string has at least one
non-whitespace character. -/
def hasNonWs (v : String) : Bool :=
  v.data.any (fun c => !(isJsWhitespace c))

/-- The `Object.entries(row).reduce(...)` accumulator of the `data` handler:
keep only fields whose value trims to a non-empty string, storing the
original value under the sanitized key. -/
def buildRawEntries (row : List (String × String)) : List (String × String) :=
  row.foldl
    (fun acc kv => if hasNonWs kv.2 then objSet acc (sanitizeTableName kv.1) kv.2 else acc)
    []

/-- The counter key `` `${a}>${b}` `` built by `remapKey` in src/pull.js. -/
def remapKey (a b : String) : String :=
  a ++ ">" ++ b

/-- Counter read with JavaScript default: `remapCounts[k] || 0`. -/
def countOf (counts : List (String × Nat)) (k : String) : Nat :=
  (objGet counts k).getD 0

/-- The increment `remapCounts[k] = (remapCounts[k] || 0) + 1`. -/
def bump (counts : List (String × Nat)) (k : String) : List (String × Nat) :=
  objSet counts k (countOf counts k + 1)

/-- One iteration of the `for (const [incoming, target] of
Object.entries(automigrations))` loop (src/pull.js lines 160-173): the rule
fires when the row has the sanitized incoming field and the relation has the
sanitized target column; it then bumps the per-pair counter, copies the value
to the target field when that field is absent, and deletes the incoming
field.  (The `remapLoggedOnce` set only deduplicates a notice message and
touches neither the row nor the counters, so it is not carried here.) -/
def applyRule (existingCols : List String)
    (st : List (String × String) × List (String × Nat)) (rule : String × String) :
    List (String × String) × List (String × Nat) :=
  let inKey := sanitizeTableName rule.1
  let tgtKey := sanitizeTableName rule.2
  match objGet st.1 inKey with
  | some v =>
    if tgtKey ∈ existingCols then
      let counts2 := bump st.2 (remapKey inKey tgtKey)
      let row2 := if (objGet st.1 tgtKey).isSome then st.1 else objSet st.1 tgtKey v
      (objDelete row2 inKey, counts2)
    else st
  | none => st

/-- The whole remap loop over the rule table, in rule order. -/
def applyRemap (rules : List (String × String)) (cols : List String)
    (entries : List (String × String)) (counts : List (String × Nat)) :
    List (String × String) × List (String × Nat) :=
  rules.foldl (applyRule cols) (entries, counts)

/-- The `data` handler for one parsed row (src/pull.js lines 153-186):
filter blank fields, apply the remap rules, then either skip the row
(`Object.keys(rawEntries).length === 0`) or build the INSERT statement from
the keys and values.  The first component is the attempted insert
(`none` = row silently skipped), the second the updated remap counters. -/
def processRow (rules : List (String × String)) (cols : List String)
    (row : List (String × String)) (counts : List (String × Nat)) :
    Option (List String × List String) × List (String × Nat) :=
  (if (applyRemap rules cols (buildRawEntries row) counts).1.isEmpty then none
   else some ((applyRemap rules cols (buildRawEntries row) counts).1.map Prod.fst,
     (applyRemap rules cols (buildRawEntries row) counts).1.map Prod.snd),
   (applyRemap rules cols (buildRawEntries row) counts).2)

theorem countOf_bump_self (counts : List (String × Nat)) (k : String) :
    countOf (bump counts k) k = countOf counts k + 1 := by
  unfold bump countOf
  rw [objGet_objSet_self]
  rfl

theorem countOf_bump_ne (counts : List (String × Nat)) (k j : String) (h : j ≠ k) :
    countOf (bump counts k) j = countOf counts j := by
  unfold bump countOf
  rw [objGet_objSet_ne _ _ _ _ h]

/-- C3: a remap rule (A→B) fires exactly when the row has the sanitized
incoming field A and the column set contains the sanitized target B; when it
fires it bumps the per-(A,B) counter, removes A from the row, and copies the
incoming value to B only when B was absent from the row; the concrete row
{A: "5"} with B a column and absent from the row becomes {B: "5"}, and the
rule leaves everything unchanged when B is not a column even though A is
present. -/
theorem spec_c3_remap_rule_behavior (a b : String) (cols : List String)
    (row : List (String × String)) (counts : List (String × Nat)) :
    (¬ ((objGet row (sanitizeTableName a)).isSome = true ∧ sanitizeTableName b ∈ cols) →
      applyRule cols (row, counts) (a, b) = (row, counts)) ∧
    (∀ v, objGet row (sanitizeTableName a) = some v → sanitizeTableName b ∈ cols →
      countOf (applyRule cols (row, counts) (a, b)).2
          (remapKey (sanitizeTableName a) (sanitizeTableName b))
        = countOf counts (remapKey (sanitizeTableName a) (sanitizeTableName b)) + 1
      ∧ objGet (applyRule cols (row, counts) (a, b)).1 (sanitizeTableName a) = none
      ∧ (sanitizeTableName a ≠ sanitizeTableName b →
          objGet (applyRule cols (row, counts) (a, b)).1 (sanitizeTableName b)
            = some ((objGet row (sanitizeTableName b)).getD v))) ∧
    applyRule ["B"] ([("A", "5")], []) ("A", "B") = ([("B", "5")], [("A>B", 1)]) ∧
    applyRule [] ([("A", "5")], []) ("A", "B") = ([("A", "5")], []) := by
  refine ⟨?_, ?_, by decide, by decide⟩
  · intro hnot
    cases hv : objGet row (sanitizeTableName a) with
    | none => simp [applyRule, hv]
    | some v =>
      have hmem : sanitizeTableName b ∉ cols := fun hm => hnot ⟨by rw [hv]; rfl, hm⟩
      simp [applyRule, hv, hmem]
  · intro v hv hmem
    have hred : applyRule cols (row, counts) (a, b) =
        (objDelete (if (objGet row (sanitizeTableName b)).isSome = true then row
          else objSet row (sanitizeTableName b) v) (sanitizeTableName a),
         bump counts (remapKey (sanitizeTableName a) (sanitizeTableName b))) := by
      simp [applyRule, hv, hmem]
    rw [hred]
    refine ⟨countOf_bump_self _ _, objGet_objDelete_self _ _, ?_⟩
    intro hne
    rw [objGet_objDelete_ne _ _ _ (Ne.symm hne)]
    cases ht : objGet row (sanitizeTableName b) with
    | none => simp [ht, objGet_objSet_self]
    | some w => simp [ht]

/-- Witness for C3: applying the rule A→B to the row {A: "5"} with column B
removes the field A. -/
theorem spec_c3_remap_rule_behavior_witness :
    objGet (applyRule ["B"] ([("A", "5")], []) ("A", "B")).1 (sanitizeTableName "A") = none :=
  ((spec_c3_remap_rule_behavior "A" "B" ["B"] [("A", "5")] []).2.1 "5"
    (by decide) (by decide)).2.1

/-- C9: when a rule's incoming and target names sanitize to the same
identifier K and the row carries field K with K among the columns, the rule
fires and deletes field K outright — the value survives under neither name,
so it is lost from the insert. -/
theorem spec_c9_collision_rule_drops_field (a b : String) (cols : List String)
    (row : List (String × String)) (counts : List (String × Nat)) (v : String)
    (hab : sanitizeTableName a = sanitizeTableName b)
    (hrow : objGet row (sanitizeTableName a) = some v)
    (hmem : sanitizeTableName b ∈ cols) :
    (applyRule cols (row, counts) (a, b)).1 = objDelete row (sanitizeTableName a) ∧
    objGet (applyRule cols (row, counts) (a, b)).1 (sanitizeTableName a) = none := by
  have hrowb : (objGet row (sanitizeTableName b)).isSome = true := by
    rw [← hab, hrow]; rfl
  have hred : applyRule cols (row, counts) (a, b) =
      (objDelete row (sanitizeTableName a),
       bump counts (remapKey (sanitizeTableName a) (sanitizeTableName b))) := by
    simp [applyRule, hrow, hmem, hrowb]
  rw [hred]
  exact ⟨rfl, objGet_objDelete_self _ _⟩

/-- Witness for C9 on the documented collision "REF DATE" → "REF_DATE": a
row holding REF_DATE loses that field entirely. -/
theorem spec_c9_collision_rule_drops_field_witness :
    objGet (applyRule ["REF_DATE"] ([("REF_DATE", "2020-01")], [])
      ("REF DATE", "REF_DATE")).1 (sanitizeTableName "REF DATE") = none :=
  (spec_c9_collision_rule_drops_field "REF DATE" "REF_DATE" ["REF_DATE"]
    [("REF_DATE", "2020-01")] [] "2020-01" (by decide) (by decide) (by decide)).2

theorem buildRawEntries_aux (row : List (String × String)) (acc : List (String × String))
    (p : String × String)
    (hp : p ∈ row.foldl
      (fun acc kv => if hasNonWs kv.2 then objSet acc (sanitizeTableName kv.1) kv.2 else acc)
      acc) :
    p ∈ acc ∨ (hasNonWs p.2 = true ∧ ∃ q ∈ row, sanitizeTableName q.1 = p.1 ∧ q.2 = p.2) := by
  induction row generalizing acc with
  | nil => exact Or.inl hp
  | cons kv rest ih =>
    simp only [List.foldl_cons] at hp
    rcases ih _ hp with h | ⟨hws, q, hq, h1, h2⟩
    · by_cases hkv : hasNonWs kv.2 = true
      · rw [if_pos hkv] at h
        rcases objSet_entry_cases _ _ _ _ h with h2 | h2
        · refine Or.inr ⟨?_, kv, List.mem_cons_self _ _, ?_, ?_⟩ <;> simp [h2, hkv]
        · exact Or.inl h2
      · rw [if_neg hkv] at h
        exact Or.inl h
    · exact Or.inr ⟨hws, q, List.mem_cons_of_mem _ hq, h1, h2⟩

theorem buildRawEntries_blank (row : List (String × String)) (acc : List (String × String))
    (hblank : ∀ q ∈ row, hasNonWs q.2 = false) :
    row.foldl
      (fun acc kv => if hasNonWs kv.2 then objSet acc (sanitizeTableName kv.1) kv.2 else acc)
      acc = acc := by
  induction row generalizing acc with
  | nil => rfl
  | cons kv rest ih =>
    simp only [List.foldl_cons]
    rw [if_neg (by simp [hblank kv (List.mem_cons_self _ _)]), ih]
    intro q hq
    exact hblank q (List.mem_cons_of_mem _ hq)

/-- C7: the write set built before remap keeps exactly the fields whose
value has a non-whitespace character (the stored value is the original
string, keyed by the sanitized field name); an all-blank row yields an
empty write set; and a row whose entry set is empty after the filter and
remap produces no insert at all. -/
theorem spec_c7_write_set (row : List (String × String)) :
    (∀ p ∈ buildRawEntries row,
      hasNonWs p.2 = true ∧ ∃ q ∈ row, sanitizeTableName q.1 = p.1 ∧ q.2 = p.2) ∧
    ((∀ q ∈ row, hasNonWs q.2 = false) → buildRawEntries row = []) ∧
    (∀ rules cols counts, (applyRemap rules cols (buildRawEntries row) counts).1 = [] →
      (processRow rules cols row counts).1 = none) := by
  refine ⟨?_, ?_, ?_⟩
  · intro p hp
    rcases buildRawEntries_aux row [] p hp with h | h
    · simp at h
    · exact h
  · intro hblank
    exact buildRawEntries_blank row [] hblank
  · intro rules cols counts h
    unfold processRow
    rw [h]
    rfl

/-- Witness for C7: a row whose fields are all blank is skipped without an
insert. -/
theorem spec_c7_write_set_witness :
    buildRawEntries [("A", " "), ("B", "")] = [] ∧
    (processRow [] [] [("A", " "), ("B", "")] []).1 = none := by
  have h := spec_c7_write_set [("A", " "), ("B", "")]
  refine ⟨h.2.1 (by decide), h.2.2 [] [] [] ?_⟩
  rw [h.2.1 (by decide)]
  rfl

/-! ## Remap counters across a whole dataset

The `remapCounts` object is accumulated over every `data` event in both
ingestion paths, but only the `end` handler of `ingestLocalCsv`
(src/pull.js lines 188-195) loops over it printing one summary line per
entry; the `end` handler of `downloadCsvToSqlite` (lines 296-303) commits
and logs success without printing any remap summary, so the counts
accumulated at line 271 are discarded there. -/

/-- Row component of `applyRule`; it never depends on the counters. -/
def applyRuleRow (cols : List String) (entries : List (String × String))
    (rule : String × String) : List (String × String) :=
  (applyRule cols (entries, []) rule).1

/-- The firing condition of one rule on the current row state. -/
def ruleFires (cols : List String) (entries : List (String × String))
    (rule : String × String) : Bool :=
  (objGet entries (sanitizeTableName rule.1)).isSome
    && decide (sanitizeTableName rule.2 ∈ cols)

/-- The counter keys bumped, in order, while the rule list runs over one row. -/
def ruleHits (cols : List String) :
    List (String × String) → List (String × String) → List String
  | _, [] => []
  | entries, r :: rs =>
    if ruleFires cols entries r then
      remapKey (sanitizeTableName r.1) (sanitizeTableName r.2) ::
        ruleHits cols (applyRuleRow cols entries r) rs
    else ruleHits cols entries rs

/-- All remap counters of one dataset: fold the per-row `data` handler over
the parsed rows, starting from the empty `remapCounts` object. -/
def datasetCounts (rules : List (String × String)) (cols : List String)
    (rows : List (List (String × String))) : List (String × Nat) :=
  rows.foldl (fun c row => (processRow rules cols row c).2) []

/-- The remap summary printed by the `end` handler of `ingestLocalCsv`
(src/pull.js lines 190-192): one line per entry of `remapCounts`, carrying
that entry's key and count. -/
def localEndSummaryLines (counts : List (String × Nat)) : List (String × Nat) :=
  counts

/-- The remap summary printed by the `end` handler of `downloadCsvToSqlite`
(src/pull.js lines 296-303): none — the handler commits, logs a success
notice and optionally deletes the temp file, never touching `remapCounts`. -/
def remoteEndSummaryLines (_counts : List (String × Nat)) : List (String × Nat) :=
  []

theorem applyRule_eq_of_fires (cols : List String) (e : List (String × String))
    (c : List (String × Nat)) (r : String × String) (h : ruleFires cols e r = true) :
    applyRule cols (e, c) r =
      (applyRuleRow cols e r,
       bump c (remapKey (sanitizeTableName r.1) (sanitizeTableName r.2))) := by
  unfold ruleFires at h
  rw [Bool.and_eq_true] at h
  obtain ⟨h1, h2⟩ := h
  have hmem : sanitizeTableName r.2 ∈ cols := of_decide_eq_true h2
  cases hv : objGet e (sanitizeTableName r.1) with
  | none => rw [hv] at h1; simp at h1
  | some v => simp [applyRule, applyRuleRow, hv, hmem]

theorem applyRule_eq_of_not_fires (cols : List String) (e : List (String × String))
    (c : List (String × Nat)) (r : String × String) (h : ruleFires cols e r = false) :
    applyRule cols (e, c) r = (e, c) := by
  unfold ruleFires at h
  cases hv : objGet e (sanitizeTableName r.1) with
  | none => simp [applyRule, hv]
  | some v =>
    rw [hv] at h
    simp only [Option.isSome_some, Bool.true_and] at h
    have hmem : sanitizeTableName r.2 ∉ cols := of_decide_eq_false h
    simp [applyRule, hv, hmem]

theorem ruleHits_cons_fires (cols : List String) (e : List (String × String))
    (r : String × String) (rs : List (String × String)) (h : ruleFires cols e r = true) :
    ruleHits cols e (r :: rs) = remapKey (sanitizeTableName r.1) (sanitizeTableName r.2) ::
      ruleHits cols (applyRuleRow cols e r) rs := by
  rw [ruleHits]
  simp [h]

theorem ruleHits_cons_not_fires (cols : List String) (e : List (String × String))
    (r : String × String) (rs : List (String × String)) (h : ruleFires cols e r = false) :
    ruleHits cols e (r :: rs) = ruleHits cols e rs := by
  rw [ruleHits]
  simp [h]

theorem applyRemap_snd (rules : List (String × String)) (cols : List String)
    (e : List (String × String)) (c : List (String × Nat)) :
    (applyRemap rules cols e c).2 = (ruleHits cols e rules).foldl bump c := by
  induction rules generalizing e c with
  | nil => rfl
  | cons r rs ih =>
    show (List.foldl (applyRule cols) (applyRule cols (e, c) r) rs).2 = _
    cases hf : ruleFires cols e r with
    | false =>
      rw [applyRule_eq_of_not_fires cols e c r hf, ruleHits_cons_not_fires cols e r rs hf]
      exact ih e c
    | true =>
      rw [applyRule_eq_of_fires cols e c r hf, ruleHits_cons_fires cols e r rs hf]
      rw [List.foldl_cons]
      exact ih _ _

theorem countOf_foldl_bump (hs : List String) (c : List (String × Nat)) (k : String) :
    countOf (hs.foldl bump c) k = countOf c k + hs.count k := by
  induction hs generalizing c with
  | nil => simp
  | cons h t ih =>
    rw [List.foldl_cons, ih]
    by_cases hk : k = h
    · subst hk
      rw [countOf_bump_self, List.count_cons_self]
      omega
    · rw [countOf_bump_ne _ _ _ hk, List.count_cons_of_ne hk]

theorem foldl_bump_entry_pos (hs : List String) (c : List (String × Nat))
    (hpos : ∀ p ∈ c, 1 ≤ p.2) : ∀ p ∈ hs.foldl bump c, 1 ≤ p.2 := by
  induction hs generalizing c with
  | nil => exact hpos
  | cons h t ih =>
    rw [List.foldl_cons]
    refine ih _ ?_
    intro p hp
    rcases objSet_entry_cases _ _ _ _ hp with h2 | h2
    · rw [h2]
      exact Nat.le_add_left 1 _
    · exact hpos p h2

theorem foldl_bump_keys_nodup (hs : List String) (c : List (String × Nat))
    (hnd : (objKeys c).Nodup) : (objKeys (hs.foldl bump c)).Nodup := by
  induction hs generalizing c with
  | nil => exact hnd
  | cons h t ih =>
    rw [List.foldl_cons]
    refine ih _ ?_
    unfold bump
    rw [objKeys_objSet]
    by_cases hk : h ∈ objKeys c
    · simpa [hk] using hnd
    · rw [if_neg hk, List.nodup_append]
      refine ⟨hnd, List.nodup_singleton _, ?_⟩
      intro a ha hb
      simp only [List.mem_singleton] at hb
      subst hb
      exact hk ha

theorem objGet_eq_countOf (c : List (String × Nat)) (k : String)
    (hpos : ∀ p ∈ c, 1 ≤ p.2) :
    objGet c k = if countOf c k = 0 then none else some (countOf c k) := by
  cases h : objGet c k with
  | none => simp [countOf, h]
  | some n =>
    have h1 : 1 ≤ n := hpos (k, n) (objGet_mem _ _ _ h)
    have h2 : countOf c k = n := by simp [countOf, h]
    rw [h2, if_neg (by omega)]

theorem datasetCounts_foldl (rules : List (String × String)) (cols : List String)
    (rows : List (List (String × String))) (c : List (String × Nat)) :
    rows.foldl (fun c row => (processRow rules cols row c).2) c
      = (rows.flatMap (fun row => ruleHits cols (buildRawEntries row) rules)).foldl bump c := by
  induction rows generalizing c with
  | nil => rfl
  | cons row rest ih =>
    rw [List.foldl_cons, List.flatMap_cons, List.foldl_append]
    rw [show (processRow rules cols row c).2
        = (applyRemap rules cols (buildRawEntries row) c).2 from rfl]
    rw [applyRemap_snd]
    exact ih _

/-- C6 counterexample: one row on which the pair (A_B, B) fires twice, so the
summary for that pair reports 2 although only 1 row was processed.  The rule
table has the three distinct raw keys "A B", "X" and "A_B"; the second rule
re-introduces the field A_B after the first rule deleted it, so the third
rule bumps the counter of the pair (A_B, B) a second time on the same row. -/
theorem spec_c6_counterexample :
    objGet (datasetCounts [("A B", "B"), ("X", "A_B"), ("A_B", "B")] ["B", "A_B"]
      [[("A_B", "v"), ("X", "w")]]) "A_B>B" = some 2 ∧
    [[("A_B", "v"), ("X", "w")]].length = 1 := by
  constructor
  · rfl
  · rfl

/-- C6 amended: the remap summary is emitted only by local-file ingestion —
at end of a locally ingested dataset, `ingestLocalCsv` emits exactly one
summary line per (incoming,target) pair that fired (the line keys are free
of duplicates and a pair is present exactly when it fired), and the line
states the accumulated firing count of that pair, the number of times the
rule fired across all rows; this equals the number of rows remapped except
when a pair fires more than once on a single row, which is possible only
when a later rule re-introduces the incoming field.  A remotely fetched
dataset emits no remap summary at all: `downloadCsvToSqlite` accumulates
the same counts and discards them. -/
theorem spec_c6_amended (rules : List (String × String)) (cols : List String)
    (rows : List (List (String × String))) :
    (objKeys (localEndSummaryLines (datasetCounts rules cols rows))).Nodup ∧
    (∀ k, objGet (localEndSummaryLines (datasetCounts rules cols rows)) k =
      (if (rows.flatMap (fun row => ruleHits cols (buildRawEntries row) rules)).count k = 0
       then none
       else some ((rows.flatMap
         (fun row => ruleHits cols (buildRawEntries row) rules)).count k))) ∧
    remoteEndSummaryLines (datasetCounts rules cols rows) = [] := by
  have hds : localEndSummaryLines (datasetCounts rules cols rows)
      = (rows.flatMap (fun row => ruleHits cols (buildRawEntries row) rules)).foldl bump [] :=
    datasetCounts_foldl rules cols rows []
  refine ⟨?_, ?_, rfl⟩
  · rw [hds]
    exact foldl_bump_keys_nodup _ [] (by simp [objKeys])
  · intro k
    rw [hds]
    rw [objGet_eq_countOf _ k (foldl_bump_entry_pos _ [] (by simp))]
    rw [countOf_foldl_bump]
    simp [countOf, objGet]

/-! ## Schema synchronization (`ensureTableSchema`, src/pull.js lines 88-109)

The relation is modelled as its ordered column list; `none` means the table
does not exist yet.  DDL statements are modelled on their success path (a
DDL failure rejects the dataset promise, which is the territory of the
orchestrator claims, not of the schema-shape claims). -/

/-- The `for (const col of sanitizedIncoming)` loop: `ALTER TABLE ... ADD
COLUMN` for every incoming column missing from the current set, extending
the set as it goes. -/
def addMissingColumns (existing : List String) (incoming : List String) : List String :=
  incoming.foldl (fun acc col => if col ∈ acc then acc else acc ++ [col]) existing

/-- `ensureTableSchema`: `CREATE TABLE IF NOT EXISTS` with the sanitized
incoming columns (a no-op when the table exists), then read the current
columns and add every missing sanitized incoming column.  Returns the
up-to-date column set, which the caller threads into the remapper. -/
def ensureTableSchema (table : Option (List String)) (incomingHeaders : List String) :
    List String :=
  let sanitizedIncoming := incomingHeaders.map sanitizeTableName
  let base := match table with
    | none => sanitizedIncoming
    | some cols => cols
  addMissingColumns base sanitizedIncoming

theorem addMissingColumns_superset (incoming : List String) (existing : List String)
    (c : String) (hc : c ∈ existing) : c ∈ addMissingColumns existing incoming := by
  induction incoming generalizing existing with
  | nil => exact hc
  | cons col rest ih =>
    unfold addMissingColumns at ih ⊢
    rw [List.foldl_cons]
    by_cases h : col ∈ existing
    · rw [if_pos h]
      exact ih existing hc
    · rw [if_neg h]
      exact ih _ (List.mem_append_left _ hc)

theorem addMissingColumns_mem_incoming (incoming : List String) (existing : List String)
    (c : String) (hc : c ∈ incoming) : c ∈ addMissingColumns existing incoming := by
  induction incoming generalizing existing with
  | nil => simp at hc
  | cons col rest ih =>
    unfold addMissingColumns at ih ⊢
    rw [List.foldl_cons]
    rcases List.mem_cons.mp hc with h | h
    · subst h
      by_cases hmem : c ∈ existing
      · rw [if_pos hmem]
        exact addMissingColumns_superset rest existing c hmem
      · rw [if_neg hmem]
        exact addMissingColumns_superset rest _ c (List.mem_append_right _ (by simp))
    · by_cases hmem : col ∈ existing
      · rw [if_pos hmem]
        exact ih existing h
      · rw [if_neg hmem]
        exact ih _ h

theorem addMissingColumns_noop (incoming : List String) (existing : List String)
    (h : ∀ c ∈ incoming, c ∈ existing) : addMissingColumns existing incoming = existing := by
  induction incoming with
  | nil => rfl
  | cons col rest ih =>
    unfold addMissingColumns at ih ⊢
    rw [List.foldl_cons, if_pos (h col (List.mem_cons_self _ _))]
    exact ih (fun c hc => h c (List.mem_cons_of_mem _ hc))

/-- C5: running the schema synchronizer with header set H1 and then H2
(starting from any prior state of the relation) leaves a column set that
contains every sanitized column of H1 and of H2; no column present after the
first run is removed by the second; and when every sanitized column of H2 is
already present after the first run, the second run changes nothing. -/
theorem spec_c5_schema_monotone (table : Option (List String)) (hdrs1 hdrs2 : List String) :
    (∀ h ∈ hdrs1,
      sanitizeTableName h ∈ ensureTableSchema (some (ensureTableSchema table hdrs1)) hdrs2) ∧
    (∀ h ∈ hdrs2,
      sanitizeTableName h ∈ ensureTableSchema (some (ensureTableSchema table hdrs1)) hdrs2) ∧
    (∀ c ∈ ensureTableSchema table hdrs1,
      c ∈ ensureTableSchema (some (ensureTableSchema table hdrs1)) hdrs2) ∧
    ((∀ h ∈ hdrs2, sanitizeTableName h ∈ ensureTableSchema table hdrs1) →
      ensureTableSchema (some (ensureTableSchema table hdrs1)) hdrs2
        = ensureTableSchema table hdrs1) := by
  have hrun1 : ∀ h ∈ hdrs1, sanitizeTableName h ∈ ensureTableSchema table hdrs1 := by
    intro h hh
    exact addMissingColumns_mem_incoming _ _ _ (List.mem_map_of_mem _ hh)
  have hkeep : ∀ c ∈ ensureTableSchema table hdrs1,
      c ∈ ensureTableSchema (some (ensureTableSchema table hdrs1)) hdrs2 := by
    intro c hc
    exact addMissingColumns_superset _ _ _ hc
  refine ⟨fun h hh => hkeep _ (hrun1 h hh), ?_, hkeep, ?_⟩
  · intro h hh
    exact addMissingColumns_mem_incoming _ _ _ (List.mem_map_of_mem _ hh)
  · intro hall
    refine addMissingColumns_noop _ _ ?_
    intro c hc
    rcases List.mem_map.mp hc with ⟨h, hh, rfl⟩
    exact hall h hh

/-- Witness for C5: re-running the synchronizer with the same single header
"A B" adds nothing, and the sanitized column A_B is present. -/
theorem spec_c5_schema_monotone_witness :
    ensureTableSchema (some (ensureTableSchema none ["A B"])) ["A B"]
      = ensureTableSchema none ["A B"] ∧
    "A_B" ∈ ensureTableSchema none ["A B"] := by
  have h := spec_c5_schema_monotone none ["A B"] ["A B"]
  exact ⟨h.2.2.2 (by decide), by decide⟩

/-! ## Overwrite transaction (src/pull.js lines 248-257 and 286-299 in
`downloadCsvToSqlite`; the identical block sits at lines 138-147 and
188-195 in `ingestLocalCsv`)

The SQLite connection is modelled as the target relation's row list plus a
transaction snapshot; `BEGIN IMMEDIATE` takes the snapshot, `ROLLBACK`
restores it, `COMMIT` drops it.  Whether `DELETE FROM` or an individual
`INSERT` fails is decided by the environment, so those failures come from
Boolean oracles.  Every database action is also recorded in an event trace
so that ordering properties (commit after the last row, no rollback during
streaming) are visible. -/

structure Db where
  rows : List (List String)
  snapshot : Option (List (List String))

inductive Ev where
  | beginTxn
  | clearOk
  | clearFail
  | rollbackTxn
  | insertOk (i : Nat)
  | insertErr (i : Nat)
  | commitTxn
deriving DecidableEq

/-- The `data` handler under overwrite mode: one `INSERT` per row; a failing
insert is logged (`insertErr` event) and the row is skipped — the handler
issues no transaction statement (src/pull.js lines 286-294). -/
def streamRows (insFail : Nat → Bool) : List (List String) → Db → Nat → Db × List Ev
  | [], d, _ => (d, [])
  | v :: rest, d, i =>
    if insFail i then
      let r := streamRows insFail rest d (i + 1)
      (r.1, Ev.insertErr i :: r.2)
    else
      let r := streamRows insFail rest { d with rows := d.rows ++ [v] } (i + 1)
      (r.1, Ev.insertOk i :: r.2)

/-- The overwrite-mode load of one dataset: `BEGIN IMMEDIATE`, then
`DELETE FROM` the relation inside a try/catch whose catch issues `ROLLBACK`
and rethrows (aborting the dataset before the `data` handler is even
attached), then the row stream, then `COMMIT` in the `end` handler.
Returns the final connection state, whether the dataset completed, and the
event trace. -/
def overwriteLoad (clearFails : Bool) (insFail : Nat → Bool)
    (incoming : List (List String)) (d : Db) : Db × Bool × List Ev :=
  let d1 : Db := { d with snapshot := some d.rows }
  if clearFails then
    ({ rows := d1.snapshot.getD d1.rows, snapshot := none }, false,
      [Ev.beginTxn, Ev.clearFail, Ev.rollbackTxn])
  else
    let d2 : Db := { d1 with rows := [] }
    let r := streamRows insFail incoming d2 0
    ({ r.1 with snapshot := none }, true, Ev.beginTxn :: Ev.clearOk :: (r.2 ++ [Ev.commitTxn]))

/-- The rows that survive streaming: those whose insert did not fail. -/
def keptRows (insFail : Nat → Bool) : List (List String) → Nat → List (List String)
  | [], _ => []
  | v :: rest, i =>
    if insFail i then keptRows insFail rest (i + 1)
    else v :: keptRows insFail rest (i + 1)

theorem streamRows_state (insFail : Nat → Bool) (vals : List (List String)) (d : Db) (i : Nat) :
    (streamRows insFail vals d i).1.rows = d.rows ++ keptRows insFail vals i ∧
    (streamRows insFail vals d i).1.snapshot = d.snapshot := by
  induction vals generalizing d i with
  | nil => simp [streamRows, keptRows]
  | cons v rest ih =>
    cases hf : insFail i with
    | true => simpa [streamRows, keptRows, hf] using ih d (i + 1)
    | false =>
      have h := ih { d with rows := d.rows ++ [v] } (i + 1)
      simpa [streamRows, keptRows, hf] using h

theorem streamRows_no_rollback (insFail : Nat → Bool) (vals : List (List String))
    (d : Db) (i : Nat) : Ev.rollbackTxn ∉ (streamRows insFail vals d i).2 := by
  induction vals generalizing d i with
  | nil => simp [streamRows]
  | cons v rest ih =>
    cases hf : insFail i with
    | true => simpa [streamRows, hf] using ih d (i + 1)
    | false => simpa [streamRows, hf] using ih { d with rows := d.rows ++ [v] } (i + 1)

/-- C2: under overwrite mode, the transaction is opened and the relation
cleared before any row event; if the clear fails, the transaction is rolled
back and the dataset aborts with the relation contents unchanged and no
insert attempted (the trace is exactly begin, failed clear, rollback); if
the clear succeeds, the run commits as the very last event after every row,
no rollback ever appears, and a per-row insert failure merely skips that
row while streaming continues inside the same transaction — the final
relation holds exactly the successfully inserted rows. -/
theorem spec_c2_overwrite_transaction (clearFails : Bool) (insFail : Nat → Bool)
    (incoming : List (List String)) (d : Db) :
    (clearFails = true →
      (overwriteLoad clearFails insFail incoming d).1.rows = d.rows ∧
      (overwriteLoad clearFails insFail incoming d).2.1 = false ∧
      (overwriteLoad clearFails insFail incoming d).2.2
        = [Ev.beginTxn, Ev.clearFail, Ev.rollbackTxn]) ∧
    (clearFails = false →
      (overwriteLoad clearFails insFail incoming d).2.2.take 2 = [Ev.beginTxn, Ev.clearOk] ∧
      (overwriteLoad clearFails insFail incoming d).2.1 = true ∧
      Ev.rollbackTxn ∉ (overwriteLoad clearFails insFail incoming d).2.2 ∧
      (overwriteLoad clearFails insFail incoming d).2.2.getLast? = some Ev.commitTxn ∧
      (overwriteLoad clearFails insFail incoming d).1.rows = keptRows insFail incoming 0) := by
  constructor
  · intro h
    subst h
    simp [overwriteLoad]
  · intro h
    subst h
    have hst := streamRows_state insFail incoming { rows := [], snapshot := some d.rows } 0
    have hnr := streamRows_no_rollback insFail incoming { rows := [], snapshot := some d.rows } 0
    refine ⟨by simp [overwriteLoad], by simp [overwriteLoad], ?_, ?_, ?_⟩
    · simp only [overwriteLoad, Bool.false_eq_true, if_false, List.mem_cons, List.mem_append,
        List.mem_singleton]
      push_neg
      refine ⟨by simp, by simp, ?_, by simp⟩
      simpa [overwriteLoad] using hnr
    · show (Ev.beginTxn :: Ev.clearOk ::
        ((streamRows insFail incoming { rows := [], snapshot := some d.rows } 0).2
          ++ [Ev.commitTxn])).getLast? = some Ev.commitTxn
      rw [show Ev.beginTxn :: Ev.clearOk ::
        ((streamRows insFail incoming { rows := [], snapshot := some d.rows } 0).2
          ++ [Ev.commitTxn])
        = (Ev.beginTxn :: Ev.clearOk ::
            (streamRows insFail incoming { rows := [], snapshot := some d.rows } 0).2)
          ++ [Ev.commitTxn] by simp]
      exact List.getLast?_concat _
    · show ((streamRows insFail incoming { rows := [], snapshot := some d.rows } 0).1.rows
        = keptRows insFail incoming 0)
      rw [hst.1]
      rfl

/-- Witness for C2: with the second insert failing, the relation ends up
with exactly the first and third rows, the old contents gone. -/
theorem spec_c2_overwrite_transaction_witness :
    (overwriteLoad false (fun i => decide (i = 1)) [["a"], ["b"], ["c"]]
      { rows := [["old"]], snapshot := none }).1.rows = [["a"], ["c"]] := by
  have h := (spec_c2_overwrite_transaction false (fun i => decide (i = 1))
    [["a"], ["b"], ["c"]] { rows := [["old"]], snapshot := none }).2 rfl
  rw [h.2.2.2.2]
  rfl

/-! ## The orchestrator loop (src/pull.js lines 321-361)

Each entry of `urls.json5` is processed in order.  A remote URL is handled
by `await downloadCsvToSqlite(...).catch(log)` — every rejection is caught
and the loop continues.  A missing local file is logged and skipped with
`continue`.  An existing local file is handled by
`await ingestLocalCsv(name, localPath)` with **no** catch: a rejection
(empty header set, DDL failure, parser error, ...) propagates out of the
async IIFE and ends the loop.  `ingestFails i` says whether processing of
dataset `i` rejects; the result is the list of dataset indices whose
processing started, plus whether the run was halted by an uncaught
rejection. -/

/-- Does the second character list start with the first one? -/
def seqStartsWith : List Char → List Char → Bool
  | [], _ => true
  | _ :: _, [] => false
  | p :: ps, c :: cs => (p == c) && seqStartsWith ps cs

/-- JavaScript `s.includes(pat)` on character lists. -/
def containsSeq (pat : List Char) : List Char → Bool
  | [] => seqStartsWith pat []
  | c :: rest => seqStartsWith pat (c :: rest) || containsSeq pat rest

/-- `isRemoteUrl` from src/pull.js line 28: the location contains "://". -/
def isRemoteUrl (s : String) : Bool :=
  containsSeq "://".data s.data

/-- The `for (const [index, [name, urlOrPath]] of ...)` loop of the main
IIFE (src/pull.js lines 335-351). -/
def mainLoop (fileExists : String → Bool) (ingestFails : Nat → Bool) :
    List (String × String) → Nat → List Nat × Bool
  | [], _ => ([], false)
  | entry :: rest, i =>
    if isRemoteUrl entry.2 then
      let r := mainLoop fileExists ingestFails rest (i + 1)
      (i :: r.1, r.2)
    else if !(fileExists entry.2) then
      let r := mainLoop fileExists ingestFails rest (i + 1)
      (i :: r.1, r.2)
    else if ingestFails i then ([i], true)
    else
      let r := mainLoop fileExists ingestFails rest (i + 1)
      (i :: r.1, r.2)

/-- C1 is wrong about the code: a failing remote dataset is caught and the
loop advances (first conjunct), but a rejection from `ingestLocalCsv` has no
catch in the loop, so a failing local dataset halts the run and the second
dataset is never processed (second conjunct). -/
theorem spec_c1_local_error_halts_run :
    mainLoop (fun _ => true) (fun _ => true)
      [("R1", "https://example.com/a.csv"), ("R2", "https://example.com/b.csv")] 0
      = ([0, 1], false) ∧
    mainLoop (fun _ => true) (fun _ => true)
      [("Local", "./crea_hpi.csv"), ("R2", "https://example.com/b.csv")] 0
      = ([0], true) := by
  constructor
  · rfl
  · rfl

/-! ## The preamble stripper (`extractObservationsCSV`, src/pull.js lines 73-86)

The function normalizes CRLF/CR line endings, searches the first line
matching the multiline case-insensitive regex
`^[ \t]*"?OBSERVATIONS"?[ \t]*\n`, and returns `text.slice(matchEnd)`
left-trimmed — unless there is no match, or the trimmed tail has no further
newline, in which case it returns `null` ("no preamble detected").
The multiline regex search is embedded by splitting the normalized text
into its newline-terminated lines plus the unterminated final segment:
`^...\n` can only match a whole terminated line, and the regex engine
returns the first such line. -/

/-- `replace(/\r\n/g, '\n').replace(/\r/g, '\n')` — a CRLF pair and a lone
CR both become one LF (the first global replace consumes CRLF pairs left to
right, the second rewrites every remaining CR). -/
def normalizeNewlines : List Char → List Char
  | [] => []
  | [c] => if c = '\r' then ['\n'] else [c]
  | c :: c2 :: rest =>
    if c = '\r' then
      if c2 = '\n' then '\n' :: normalizeNewlines rest
      else '\n' :: normalizeNewlines (c2 :: rest)
    else c :: normalizeNewlines (c2 :: rest)

def isSpaceTab (c : Char) : Bool :=
  c == ' ' || c == '\t'

/-- Does a line's content (without its terminating newline) match
`[ \t]*"?OBSERVATIONS"?[ \t]*` case-insensitively?  `Char.toUpper` only
maps ASCII lowercase, which coincides with the regex `i`-flag
canonicalization for the ASCII pattern letters. -/
def isMarkerContent (l : List Char) : Bool :=
  let l1 := l.dropWhile isSpaceTab
  let l2 := match l1 with
    | '\"' :: r => r
    | _ => l1
  let w := l2.take 12
  let r1 := l2.drop 12
  let r2 := match r1 with
    | '\"' :: r => r
    | _ => r1
  (w.map Char.toUpper == "OBSERVATIONS".data) && r2.all isSpaceTab

/-- Split a text into its newline-terminated line contents and the
trailing segment after the last newline. -/
def splitLinesT : List Char → List (List Char) × List Char
  | [] => ([], [])
  | c :: rest =>
    let r := splitLinesT rest
    if c = '\n' then ([] :: r.1, r.2)
    else
      match r.1 with
      | [] => ([], c :: r.2)
      | l :: ls => ((c :: l) :: ls, r.2)

/-- Rebuild a text from terminated lines plus trailing segment. -/
def joinLinesT : List (List Char) → List Char → List Char
  | [], t => t
  | l :: ls, t => l ++ '\n' :: joinLinesT ls t

/-- Scan the terminated lines for the first regex match and return the text
that follows the matched line (`text.slice(m.index + m[0].length)`). -/
def findMarkerTail : List (List Char) → List Char → Option (List Char)
  | [], _ => none
  | l :: ls, t => if isMarkerContent l then some (joinLinesT ls t) else findMarkerTail ls t

/-- `extractObservationsCSV` from src/pull.js lines 73-86. -/
def extractObservationsCSV (fullText : List Char) : Option (List Char) :=
  let text := normalizeNewlines fullText
  let sp := splitLinesT text
  match findMarkerTail sp.1 sp.2 with
  | none => none
  | some rest =>
    let tail := rest.dropWhile isJsWhitespace
    if tail.contains '\n' then some tail else none

/-- The caller's `if (obs) raw = obs` (src/pull.js lines 115-119 and
218-223): a `null` — or, by JavaScript truthiness, empty — result leaves
the full original text as the parsed payload. -/
def ingestPayload (raw : List Char) : List Char :=
  match extractObservationsCSV raw with
  | some obs => if obs.isEmpty then raw else obs
  | none => raw

theorem joinLinesT_splitLinesT (t : List Char) :
    joinLinesT (splitLinesT t).1 (splitLinesT t).2 = t := by
  induction t with
  | nil => rfl
  | cons c rest ih =>
    by_cases hc : c = '\n'
    · subst hc
      have hsp : splitLinesT ('\n' :: rest)
          = ([] :: (splitLinesT rest).1, (splitLinesT rest).2) := by
        simp [splitLinesT]
      rw [hsp]
      simp only [joinLinesT, List.nil_append]
      rw [ih]
    · cases hr : (splitLinesT rest).1 with
      | nil =>
        have hsp : splitLinesT (c :: rest) = ([], c :: (splitLinesT rest).2) := by
          simp [splitLinesT, hc, hr]
        rw [hsp]
        simp only [joinLinesT]
        have h2 : (splitLinesT rest).2 = rest := by
          conv_rhs => rw [← ih]
          rw [hr]
          simp [joinLinesT]
        rw [h2]
      | cons l ls =>
        have hsp : splitLinesT (c :: rest) = ((c :: l) :: ls, (splitLinesT rest).2) := by
          simp [splitLinesT, hc, hr]
        rw [hsp]
        simp only [joinLinesT, List.cons_append]
        have h2 : l ++ '\n' :: joinLinesT ls (splitLinesT rest).2 = rest := by
          conv_rhs => rw [← ih]
          rw [hr]
          simp [joinLinesT]
        rw [h2]

theorem splitLinesT_append_line (l rest : List Char) (hl : '\n' ∉ l) :
    splitLinesT (l ++ '\n' :: rest) = (l :: (splitLinesT rest).1, (splitLinesT rest).2) := by
  induction l with
  | nil => simp [splitLinesT]
  | cons c l2 ih =>
    have hc : c ≠ '\n' := fun h => hl (by rw [h]; exact List.mem_cons_self _ _)
    have hl2 : '\n' ∉ l2 := fun h => hl (List.mem_cons_of_mem _ h)
    show splitLinesT (c :: (l2 ++ '\n' :: rest)) = _
    simp only [splitLinesT]
    rw [if_neg hc, ih hl2]

theorem splitLinesT_join (L : List (List Char)) (rest : List Char)
    (hL : ∀ l ∈ L, '\n' ∉ l) :
    splitLinesT (joinLinesT L rest)
      = (L ++ (splitLinesT rest).1, (splitLinesT rest).2) := by
  induction L with
  | nil => simp [joinLinesT]
  | cons l ls ih =>
    simp only [joinLinesT]
    rw [splitLinesT_append_line l _ (hL l (List.mem_cons_self _ _)),
      ih (fun x hx => hL x (List.mem_cons_of_mem _ hx))]
    simp

theorem findMarkerTail_append (L1 L2 : List (List Char)) (t : List Char)
    (h : ∀ l ∈ L1, isMarkerContent l = false) :
    findMarkerTail (L1 ++ L2) t = findMarkerTail L2 t := by
  induction L1 with
  | nil => rfl
  | cons l ls ih =>
    simp only [List.cons_append, findMarkerTail]
    rw [if_neg (by simp [h l (List.mem_cons_self _ _)])]
    exact ih (fun x hx => h x (List.mem_cons_of_mem _ hx))

theorem findMarkerTail_none (L : List (List Char)) (t : List Char)
    (h : ∀ l ∈ L, isMarkerContent l = false) : findMarkerTail L t = none := by
  induction L with
  | nil => rfl
  | cons l ls ih =>
    simp only [findMarkerTail]
    rw [if_neg (by simp [h l (List.mem_cons_self _ _)])]
    exact ih (fun x hx => h x (List.mem_cons_of_mem _ hx))

theorem normalizeNewlines_id (t : List Char) (h : '\r' ∉ t) : normalizeNewlines t = t := by
  induction t with
  | nil => rfl
  | cons c rest ih =>
    have hc : c ≠ '\r' := fun hh => h (by rw [hh]; exact List.mem_cons_self _ _)
    have hrest : '\r' ∉ rest := fun hh => h (List.mem_cons_of_mem _ hh)
    cases rest with
    | nil => simp [normalizeNewlines, hc]
    | cons c2 rest2 =>
      simp only [normalizeNewlines]
      rw [if_neg hc, ih hrest]

theorem joinLinesT_not_mem (L : List (List Char)) (rest : List Char) (ch : Char)
    (hch : ch ≠ '\n') (hL : ∀ l ∈ L, ch ∉ l) (hrest : ch ∉ rest) :
    ch ∉ joinLinesT L rest := by
  induction L with
  | nil => exact hrest
  | cons l ls ih =>
    simp only [joinLinesT, List.mem_append, List.mem_cons]
    push_neg
    exact ⟨hL l (List.mem_cons_self _ _), hch,
      ih (fun x hx => hL x (List.mem_cons_of_mem _ hx))⟩

/-- C4 amended: when no line of the (newline-normalized) input matches the
OBSERVATIONS marker, the stripper returns the no-preamble sentinel and the
full text is the parsed payload.  When a newline-terminated marker line is
present (first match wins), the stripper returns everything strictly after
that line with leading whitespace trimmed — provided that trimmed payload
still contains a newline; otherwise it falls back to the sentinel (the
situation isolated by C10). -/
theorem spec_c4_amended :
    (∀ t : List Char,
      (∀ l ∈ (splitLinesT (normalizeNewlines t)).1, isMarkerContent l = false) →
      extractObservationsCSV t = none ∧ ingestPayload t = t) ∧
    (∀ (preLines : List (List Char)) (m post : List Char),
      (∀ l ∈ preLines, '\n' ∉ l ∧ '\r' ∉ l ∧ isMarkerContent l = false) →
      '\n' ∉ m → '\r' ∉ m → isMarkerContent m = true → '\r' ∉ post →
      extractObservationsCSV (joinLinesT preLines (m ++ '\n' :: post))
        = (if (post.dropWhile isJsWhitespace).contains '\n'
           then some (post.dropWhile isJsWhitespace) else none)) := by
  constructor
  · intro t h
    have hnone : extractObservationsCSV t = none := by
      simp only [extractObservationsCSV]
      rw [findMarkerTail_none _ _ h]
    exact ⟨hnone, by simp [ingestPayload, hnone]⟩
  · intro preLines m post hpre hm1 hm2 hm3 hpost
    have hcr : '\r' ∉ joinLinesT preLines (m ++ '\n' :: post) := by
      refine joinLinesT_not_mem _ _ _ (by decide) (fun l hl => (hpre l hl).2.1) ?_
      simp only [List.mem_append, List.mem_cons]
      push_neg
      exact ⟨hm2, by decide, hpost⟩
    have hsplit : splitLinesT (joinLinesT preLines (m ++ '\n' :: post))
        = (preLines ++ m :: (splitLinesT post).1, (splitLinesT post).2) := by
      rw [splitLinesT_join _ _ (fun l hl => (hpre l hl).1),
        splitLinesT_append_line _ _ hm1]
    simp only [extractObservationsCSV]
    rw [normalizeNewlines_id _ hcr, hsplit]
    simp only
    rw [findMarkerTail_append _ _ _ (fun l hl => (hpre l hl).2.2)]
    simp only [findMarkerTail]
    rw [if_pos hm3, joinLinesT_splitLinesT]

/-- Witness for C4: a one-line preamble followed by a terminated marker line
and a two-line payload strips to exactly the payload. -/
theorem spec_c4_amended_witness :
    extractObservationsCSV (joinLinesT ["Some preamble".data]
      ("OBSERVATIONS".data ++ '\n' :: "REF_DATE,VALUE\n2020,1".data))
      = some ("REF_DATE,VALUE\n2020,1".data) := by
  have h := spec_c4_amended.2 ["Some preamble".data] ("OBSERVATIONS".data)
    ("REF_DATE,VALUE\n2020,1".data) (by decide) (by decide) (by decide) (by decide) (by decide)
  rw [h]
  rfl

/-- C4 counterexample: the input "OBSERVATIONS\nREF_DATE,VALUE" has a line
consisting exactly of the marker, yet the stripper returns the sentinel
instead of the payload "REF_DATE,VALUE" the claim promises. -/
theorem spec_c4_counterexample :
    isMarkerContent ("OBSERVATIONS".data) = true ∧
    (splitLinesT (normalizeNewlines ("OBSERVATIONS\nREF_DATE,VALUE".data))).1
      = ["OBSERVATIONS".data] ∧
    extractObservationsCSV ("OBSERVATIONS\nREF_DATE,VALUE".data) = none := by
  exact ⟨rfl, rfl, rfl⟩

/-- C10: the stripper yields a payload only when that payload still contains
a newline; concretely, a terminated marker line followed by a single
header-only line returns the sentinel, an unterminated marker line returns
the sentinel, and in that case the caller parses the full original text,
preamble included. -/
theorem spec_c10_sentinel_edge_cases :
    (∀ t p : List Char, extractObservationsCSV t = some p → p.contains '\n' = true) ∧
    extractObservationsCSV ("Some preamble\nOBSERVATIONS\nREF_DATE,VALUE".data) = none ∧
    extractObservationsCSV ("Some preamble\nOBSERVATIONS".data) = none ∧
    ingestPayload ("Some preamble\nOBSERVATIONS\nREF_DATE,VALUE".data)
      = "Some preamble\nOBSERVATIONS\nREF_DATE,VALUE".data := by
  refine ⟨?_, rfl, rfl, rfl⟩
  intro t p h
  simp only [extractObservationsCSV] at h
  cases hf : findMarkerTail (splitLinesT (normalizeNewlines t)).1
      (splitLinesT (normalizeNewlines t)).2 with
  | none =>
    rw [hf] at h
    simp at h
  | some rest =>
    rw [hf] at h
    by_cases hc : (rest.dropWhile isJsWhitespace).contains '\n' = true
    · simp only [hc, if_true, Option.some.injEq] at h
      rw [← h]
      exact hc
    · simp only [hc, Bool.false_eq_true, ite_false] at h
      exact absurd h (by simp)

/-- Witness for C10: an input whose payload spans two lines strips to a
payload that indeed contains a newline. -/
theorem spec_c10_sentinel_edge_cases_witness :
    List.contains ("h,k\nv,w".data) '\n' = true :=
  spec_c10_sentinel_edge_cases.1 ("A\nOBSERVATIONS\nh,k\nv,w".data) ("h,k\nv,w".data)
    (by decide)

end AutoStatsCan
